import Mathlib

/-!
Verification of the gutenshad text-acquisition pipeline.

The TypeScript source is shallowly embedded over `List Char`: the
normalizer (`cleanGutenbergText`), the segmenter (`splitIntoChapters`
with its heading scan `findMatches`), the fetcher (`fetchGutenbergText`
over an abstract network environment), the JSON cache store
(`cacheBookToFile` / `loadBookFromCache` over an abstract key-value
file system), and the batch driver (`demo`).
-/

set_option maxRecDepth 8192

namespace Gutenshad

/-- Character list of a string literal. -/
def S (s : String) : List Char := s.data

/-- The JavaScript regex whitespace class (also used by String.trim). -/
def isSpace (c : Char) : Bool :=
  c = ' ' || c = '\t' || c = '\n' || c = '\x0b' || c = '\x0c' || c = '\r' ||
  c = '\u00a0' || c = '\u1680' || ('\u2000' ≤ c && c ≤ '\u200a') ||
  c = '\u2028' || c = '\u2029' || c = '\u202f' || c = '\u205f' ||
  c = '\u3000' || c = '\ufeff'

/-- JavaScript line terminators: with the m flag, ^ anchors right after these. -/
def isLineTerm (c : Char) : Bool :=
  c = '\n' || c = '\r' || c = '\u2028' || c = '\u2029'

/-- The character class [IVXLCDM] of the heading regex. -/
def isRomanCh (c : Char) : Bool :=
  c = 'I' || c = 'V' || c = 'X' || c = 'L' || c = 'C' || c = 'D' || c = 'M'

/-- The character class \d of the heading regex. -/
def isDigitCh (c : Char) : Bool := '0' ≤ c && c ≤ '9'

/-- JavaScript String.trim: drop leading and trailing whitespace. -/
def trimL (l : List Char) : List Char :=
  ((l.dropWhile isSpace).reverse.dropWhile isSpace).reverse

/-- JavaScript String.split on a single newline character. -/
def splitNl : List Char → List (List Char)
  | [] => [[]]
  | c :: rest =>
    if c = '\n' then [] :: splitNl rest
    else
      match splitNl rest with
      | [] => [[c]]
      | l :: ls => (c :: l) :: ls

/-- JavaScript Array.join with a single newline character. -/
def joinNl : List (List Char) → List Char
  | [] => []
  | [x] => x
  | x :: y :: rest => x ++ '\n' :: joinNl (y :: rest)

/-- Index of the first element satisfying p (the forward header scan in the source). -/
def firstIdx (p : List Char → Bool) : List (List Char) → Option Nat
  | [] => none
  | x :: xs => if p x then some 0 else (firstIdx p xs).map (· + 1)

/-- Index of the last element satisfying p (the backward footer scan in the source). -/
def lastIdx (p : List Char → Bool) : List (List Char) → Option Nat
  | [] => none
  | x :: xs =>
    match lastIdx p xs with
    | some k => some (k + 1)
    | none => if p x then some 0 else none

/-- replace(/\r\n/g, newline): left-to-right, no rescan of the replacement. -/
def stripCR : List Char → List Char
  | '\r' :: '\n' :: rest => '\n' :: stripCR rest
  | c :: rest => c :: stripCR rest
  | [] => []

/-- A maximal run of n newlines prints as min n 2 newlines: runs of three or
more collapse to exactly two, shorter runs are unchanged. -/
def emitNl (n : Nat) : List Char := List.replicate (min n 2) '\n'

/-- Scan with a count of pending newline characters. -/
def collapseGo : List Char → Nat → List Char
  | [], n => emitNl n
  | c :: rest, n =>
    if c = '\n' then collapseGo rest (n + 1)
    else emitNl n ++ c :: collapseGo rest 0

/-- replace of 3-or-more newline runs by exactly two. -/
def collapseNl (l : List Char) : List Char := collapseGo l 0

/-- Does the second list start with the first (String.startsWith / the ^-anchored
literal alternatives of the header regex)? -/
def startsWithL : List Char → List Char → Bool
  | [], _ => true
  | _ :: _, [] => false
  | p :: ps, c :: cs => p = c && startsWithL ps cs

/-- JavaScript String.includes: does pat occur contiguously in l? -/
def containsSub (pat : List Char) : List Char → Bool
  | [] => pat.isEmpty
  | c :: rest => startsWithL pat (c :: rest) || containsSub pat rest

/-- The content-start test of cleanGutenbergText on one line: a start banner,
or a line beginning with a chapter/numeral heading (per the anchored regex). -/
def startPred (l : List Char) : Bool :=
  containsSub (S "*** START OF") l || containsSub (S "***START OF") l ||
  startsWithL (S "CHAPTER") l || startsWithL (S "Chapter") l ||
  startsWithL (S "I.") l || startsWithL (S "1.") l

/-- The end-of-content test of cleanGutenbergText on one line. -/
def endPred (l : List Char) : Bool :=
  containsSub (S "*** END OF") l || containsSub (S "***END OF") l

/-- cleanGutenbergText from the source: find the first content-start line
(default index 0), the last end-banner line (default the line count), keep
lines[startIdx..endIdx), rejoin, normalize line endings, collapse newline
runs, and trim. -/
def cleanGutenbergText (raw : List Char) : List Char :=
  let lines := splitNl raw
  let si := (firstIdx startPred lines).getD 0
  let ei := (lastIdx endPred lines).getD lines.length
  trimL (collapseNl (stripCR (joinNl ((lines.drop si).take (ei - si)))))

/-- The keyword group (CHAPTER|Chapter|BOOK|Book) as a literal alternative. -/
def tryKeyword : List Char → Option (List Char × List Char)
  | 'C' :: 'H' :: 'A' :: 'P' :: 'T' :: 'E' :: 'R' :: rest => some (S "CHAPTER", rest)
  | 'C' :: 'h' :: 'a' :: 'p' :: 't' :: 'e' :: 'r' :: rest => some (S "Chapter", rest)
  | 'B' :: 'O' :: 'O' :: 'K' :: rest => some (S "BOOK", rest)
  | 'B' :: 'o' :: 'o' :: 'k' :: rest => some (S "Book", rest)
  | _ => none

/-- First regex alternative: keyword, one or more whitespace, one or more
roman/decimal numeral characters (greedy; the classes are disjoint, so the
greedy run is exact). -/
def alt1 (s : List Char) : Option (List Char) :=
  match tryKeyword s with
  | none => none
  | some (kw, rest) =>
    let sp := rest.takeWhile isSpace
    if sp.isEmpty then none
    else
      let rest2 := rest.drop sp.length
      let num := rest2.takeWhile (fun c => isRomanCh c || isDigitCh c)
      if num.isEmpty then none else some (kw ++ sp ++ num)

/-- Second regex alternative: one or more roman numeral characters then a dot. -/
def alt2 (s : List Char) : Option (List Char) :=
  let rom := s.takeWhile isRomanCh
  if rom.isEmpty then none
  else
    match s.drop rom.length with
    | '.' :: _ => some (rom ++ ['.'])
    | _ => none

/-- Third regex alternative: one or more digits then a dot. -/
def alt3 (s : List Char) : Option (List Char) :=
  let ds := s.takeWhile isDigitCh
  if ds.isEmpty then none
  else
    match s.drop ds.length with
    | '.' :: _ => some (ds ++ ['.'])
    | _ => none

/-- One attempt of the heading regex at a position; ls says whether the
position is a line start (the ^ anchor in multiline mode). Alternatives are
tried in source order. -/
def matchAt (s : List Char) (ls : Bool) : Option (List Char) :=
  if ls then
    match alt1 s with
    | some m => some m
    | none =>
      match alt2 s with
      | some m => some m
      | none => alt3 s
  else none

/-- The matchAll scan: current position i, line-start flag, and the number of
characters still to be skipped because they lie inside the previous match. -/
def goMatches : List Char → Nat → Bool → Nat → List (Nat × List Char)
  | [], _, _, _ => []
  | c :: rest, i, ls, skip =>
    match skip with
    | k + 1 => goMatches rest (i + 1) (isLineTerm c) k
    | 0 =>
      match matchAt (c :: rest) ls with
      | some m => (i, m) :: goMatches rest (i + 1) (isLineTerm c) (m.length - 1)
      | none => goMatches rest (i + 1) (isLineTerm c) 0

/-- All heading matches of the text, as (index, matched text) pairs in order. -/
def findMatches (t : List Char) : List (Nat × List Char) := goMatches t 0 true 0

structure Chapter where
  title : List Char
  content : List Char
deriving DecidableEq, Repr

/-- The end offset of the chapter at the head of the remaining match list:
the next match's index, or the text length for the last match. -/
def nextIdx (t : List Char) : List (Nat × List Char) → Nat
  | [] => t.length
  | (j, _) :: _ => j

/-- The per-match loop of splitIntoChapters: each chapter runs from its match
index to the next match index (or the end of the text), sliced and trimmed. -/
def buildChapters (t : List Char) : List (Nat × List Char) → List Chapter
  | [] => []
  | (i, m) :: rest =>
    ⟨trimL m, trimL ((t.drop i).take (nextIdx t rest - i))⟩ :: buildChapters t rest

/-- splitIntoChapters from the source, including the single-chapter fallback. -/
def splitIntoChapters (t : List Char) : List Chapter :=
  match findMatches t with
  | [] => [⟨S "Full Text", t⟩]
  | m :: ms => buildChapters t (m :: ms)

/-- The untrimmed slices underlying buildChapters (used to state span facts). -/
def spansOf (t : List Char) : List (Nat × List Char) → List (List Char)
  | [] => []
  | (i, _) :: rest => ((t.drop i).take (nextIdx t rest - i)) :: spansOf t rest

structure BookInfo where
  id : Int
  title : List Char
  author : List Char
deriving DecidableEq, Repr

/-- The source catalog, in its insertion (and hence iteration) order. -/
def BOOKS : List (List Char × BookInfo) :=
  [ (S "pride_prejudice", ⟨1342, S "Pride and Prejudice", S "Jane Austen"⟩),
    (S "alice_wonderland", ⟨11, S "Alice in Wonderland", S "Lewis Carroll"⟩),
    (S "frankenstein", ⟨84, S "Frankenstein", S "Mary Shelley"⟩),
    (S "dracula", ⟨345, S "Dracula", S "Bram Stoker"⟩),
    (S "great_gatsby", ⟨64317, S "The Great Gatsby", S "F. Scott Fitzgerald"⟩) ]

def lookupKey : List (List Char × BookInfo) → List Char → Option BookInfo
  | [], _ => none
  | (k, v) :: rest, key => if k = key then some v else lookupKey rest key

structure LoadedBook where
  id : Int
  title : List Char
  author : List Char
  chapters : List Chapter
  totalChapters : Int
deriving DecidableEq, Repr

/-- What the remote source does for one request. -/
inductive FetchResult where
  | ok (body : List Char)
  | transportErr
  | statusErr (code : Nat)
deriving DecidableEq, Repr

/-- fetchGutenbergText: on a 2xx body, clean and return it; any failure
(non-ok status, which the source throws, or a transport error) is caught by
the surrounding try/catch and becomes null. -/
def fetchGutenbergText (f : Int → FetchResult) (bookId : Int) : Option (List Char) :=
  match f bookId with
  | .ok body => some (cleanGutenbergText body)
  | .transportErr => none
  | .statusErr _ => none

/-- The two exceptions loadBook can throw. -/
inductive LoadErr where
  | unknownBook
  | failedFetch
deriving DecidableEq, Repr

/-- loadBook from the source: catalog lookup, fetch, segment, assemble. -/
def loadBook (f : Int → FetchResult) (bookKey : List Char) : Except LoadErr LoadedBook :=
  match lookupKey BOOKS bookKey with
  | none => .error .unknownBook
  | some info =>
    match fetchGutenbergText f info.id with
    | none => .error .failedFetch
    | some text =>
      let chapters := splitIntoChapters text
      .ok ⟨info.id, info.title, info.author, chapters, (chapters.length : Int)⟩

/-- JSON values (the tree JSON.stringify writes and JSON.parse reads back). -/
inductive Json where
  | null
  | bool (b : Bool)
  | num (n : Int)
  | str (s : List Char)
  | arr (xs : List Json)
  | obj (fields : List (List Char × Json))

def chapterToJson (c : Chapter) : Json :=
  .obj [(S "title", .str c.title), (S "content", .str c.content)]

/-- The JSON image of a LoadedBook, field order as produced by the source's
object spread: id, title, author, chapters, totalChapters. -/
def bookToJson (b : LoadedBook) : Json :=
  .obj [ (S "id", .num b.id), (S "title", .str b.title), (S "author", .str b.author),
         (S "chapters", .arr (b.chapters.map chapterToJson)),
         (S "totalChapters", .num b.totalChapters) ]

def getField : List (List Char × Json) → List Char → Option Json
  | [], _ => none
  | (k, v) :: rest, name => if k = name then some v else getField rest name

/-- Modelled from the spec: the consumer contract of the cache artifact reads
a chapter object ({title, content}) back field for field. -/
def jsonToChapter : Json → Option Chapter
  | .obj fs =>
    match getField fs (S "title"), getField fs (S "content") with
    | some (.str t), some (.str c) => some ⟨t, c⟩
    | _, _ => none
  | _ => none

def decodeChapters : List Json → Option (List Chapter)
  | [] => some []
  | j :: rest =>
    match jsonToChapter j, decodeChapters rest with
    | some c, some cs => some (c :: cs)
    | _, _ => none

/-- Modelled from the spec: the consumer contract of the cache artifact reads
the book shape (id, title, author, chapters, totalChapters) back field for
field, chapters in stored order. The source itself casts the parsed JSON
without validation; this decoder names that shape explicitly. -/
def jsonToBook : Json → Option LoadedBook
  | .obj fs =>
    match getField fs (S "id"), getField fs (S "title"), getField fs (S "author"),
          getField fs (S "chapters"), getField fs (S "totalChapters") with
    | some (.num i), some (.str t), some (.str a), some (.arr cs), some (.num tc) =>
      match decodeChapters cs with
      | some chs => some ⟨i, t, a, chs, tc⟩
      | none => none
    | _, _, _, _, _ => none
  | _ => none

/-- One cache file: either JSON that parses, or contents JSON.parse throws on. -/
inductive CacheFile where
  | valid (j : Json)
  | corrupt

/-- The durable store: catalog key to file contents (none = no file). -/
def Store : Type := List Char → Option CacheFile

def updStore (σ : Store) (key : List Char) (v : CacheFile) : Store :=
  fun k => if k = key then some v else σ k

/-- cacheBookToFile on a successful write: serialize the full book under the
key's path (directory creation folded in). -/
def cacheBookToFile (σ : Store) (bookKey : List Char) (b : LoadedBook) : Store :=
  updStore σ bookKey (.valid (bookToJson b))

/-- loadBookFromCache: read and JSON.parse the file; the catch-all returns
null both when the file is missing and when parsing throws. -/
def loadBookFromCache (σ : Store) (bookKey : List Char) : Option Json :=
  match σ bookKey with
  | some (.valid j) => some j
  | some .corrupt => none
  | none => none

/-- JavaScript truthiness of the parsed cache value (the if (cachedBook) test). -/
def jsTruthy : Json → Bool
  | .null => false
  | .bool b => b
  | .num n => decide (n ≠ 0)
  | .str s => decide (s ≠ [])
  | .arr _ => true
  | .obj _ => true

/-- The demo's cache test: a cache hit is a parsed, truthy cache value. -/
def cacheHit (σ : Store) (key : List Char) : Bool :=
  match loadBookFromCache σ key with
  | some j => jsTruthy j
  | none => false

/-- The ambient effects of one run: the remote source and whether the file
write under a given key succeeds. -/
structure Env where
  fetch : Int → FetchResult
  writeOk : List Char → Bool

/-- Outcome of a demo run: final store, keys for which the fetcher was
invoked, keys processed to completion (in order), and the key whose thrown
exception ended the run early, if any. -/
structure DemoResult where
  store : Store
  fetched : List (List Char)
  completed : List (List Char)
  failed : Option (List Char)

/-- The demo loop. The source wraps the whole for-in loop in one try/catch,
so the first throw (failed fetch or failed write) stops the iteration; the
catch swallows the exception after logging. -/
def demoGo (env : Env) : List (List Char × BookInfo) → Store → DemoResult
  | [], σ => ⟨σ, [], [], none⟩
  | (key, _) :: rest, σ =>
    if cacheHit σ key then
      ⟨(demoGo env rest σ).store, (demoGo env rest σ).fetched,
        key :: (demoGo env rest σ).completed, (demoGo env rest σ).failed⟩
    else
      match loadBook env.fetch key with
      | .error .unknownBook => ⟨σ, [], [], some key⟩
      | .error .failedFetch => ⟨σ, [key], [], some key⟩
      | .ok book =>
        if env.writeOk key then
          ⟨(demoGo env rest (cacheBookToFile σ key book)).store,
            key :: (demoGo env rest (cacheBookToFile σ key book)).fetched,
            key :: (demoGo env rest (cacheBookToFile σ key book)).completed,
            (demoGo env rest (cacheBookToFile σ key book)).failed⟩
        else ⟨σ, [key], [], some key⟩

/-- demo from the source: drive the whole catalog, cache-check first. -/
def demo (env : Env) (σ : Store) : DemoResult := demoGo env BOOKS σ

def bookKeys : List (List Char) := BOOKS.map Prod.fst

/-- x occurs as one contiguous segment of t. -/
def subseg (x t : List Char) : Prop := ∃ u v, t = u ++ x ++ v

/-! ### Helper lemmas about trimming -/

theorem dropWhile_len_le (p : Char → Bool) : ∀ l : List Char, (l.dropWhile p).length ≤ l.length
  | [] => Nat.le_refl _
  | c :: rest => by
    rw [List.dropWhile_cons]
    split
    · exact Nat.le_trans (dropWhile_len_le p rest) (Nat.le_succ _)
    · exact Nat.le_refl _

theorem dropWhile_fix_head {p : Char → Bool} {c : Char} {z : List Char}
    (h : List.dropWhile p (c :: z) = c :: z) : p c = false := by
  cases hc : p c with
  | false => rfl
  | true =>
    rw [List.dropWhile_cons, if_pos hc] at h
    have hlen := congrArg List.length h
    have := dropWhile_len_le p z
    simp at hlen
    omega

/-- Any list splits as its trailing-whitespace-trimmed reverse decomposition. -/
theorem rev_dropWhile_decomp (p : Char → Bool) (a : List Char) :
    a = (a.reverse.dropWhile p).reverse ++ (a.reverse.takeWhile p).reverse := by
  conv_lhs => rw [← List.reverse_reverse a, ← List.takeWhile_append_dropWhile p a.reverse]
  rw [List.reverse_append]

/-- trimL leaves no leading whitespace. -/
theorem trimL_front_fix (l : List Char) : List.dropWhile isSpace (trimL l) = trimL l := by
  have hA : List.dropWhile isSpace (List.dropWhile isSpace l) = List.dropWhile isSpace l :=
    List.dropWhile_idempotent _ _
  have hdec := rev_dropWhile_decomp isSpace (List.dropWhile isSpace l)
  unfold trimL
  cases hB : ((List.dropWhile isSpace l).reverse.dropWhile isSpace).reverse with
  | nil => rfl
  | cons c bs =>
    rw [hB] at hdec
    have hfix : List.dropWhile isSpace (c :: (bs ++ ((List.dropWhile isSpace l).reverse.takeWhile isSpace).reverse)) = c :: (bs ++ ((List.dropWhile isSpace l).reverse.takeWhile isSpace).reverse) := by
      rw [List.cons_append] at hdec
      rw [← hdec]
      exact hA
    have hc := dropWhile_fix_head hfix
    rw [List.dropWhile_cons, if_neg (by simp [hc])]

/-- trimL leaves no trailing whitespace. -/
theorem trimL_back_fix (l : List Char) :
    List.dropWhile isSpace (trimL l).reverse = (trimL l).reverse := by
  unfold trimL
  rw [List.reverse_reverse]
  exact List.dropWhile_idempotent _ _

theorem trimL_idem (l : List Char) : trimL (trimL l) = trimL l := by
  conv_lhs => rw [trimL, trimL_front_fix l, trimL_back_fix l, List.reverse_reverse]

/-- The trimmed list occurs inside the original. -/
theorem trimL_subseg (l : List Char) : subseg (trimL l) l := by
  refine ⟨l.takeWhile isSpace, ((l.dropWhile isSpace).reverse.takeWhile isSpace).reverse, ?_⟩
  conv_lhs => rw [← List.takeWhile_append_dropWhile isSpace l,
    rev_dropWhile_decomp isSpace (List.dropWhile isSpace l)]
  rw [List.append_assoc]
  rfl

theorem subseg_trans {x y z : List Char} (h1 : subseg x y) (h2 : subseg y z) : subseg x z := by
  obtain ⟨u1, v1, rfl⟩ := h1
  obtain ⟨u2, v2, rfl⟩ := h2
  exact ⟨u2 ++ u1, v1 ++ v2, by simp⟩

theorem take_subseg (n : Nat) (l : List Char) : subseg (l.take n) l :=
  ⟨[], l.drop n, by rw [List.nil_append, List.take_append_drop]⟩

theorem drop_subseg (n : Nat) (l : List Char) : subseg (l.drop n) l :=
  ⟨l.take n, [], by rw [List.append_nil, List.take_append_drop]⟩

/-! ### Helper lemmas about line splitting and the marker scans -/

theorem splitNl_no_nl : ∀ l : List Char, ('\n' : Char) ∉ l → splitNl l = [l]
  | [], _ => rfl
  | c :: rest, h => by
    have hc : ¬ c = '\n' := fun e => h (e ▸ List.mem_cons_self c rest)
    have hr : ('\n' : Char) ∉ rest := fun m => h (List.mem_cons_of_mem _ m)
    simp only [splitNl, if_neg hc, splitNl_no_nl rest hr]

theorem splitNl_append (u : List Char) : ∀ x : List Char, ('\n' : Char) ∉ x →
    splitNl (x ++ '\n' :: u) = x :: splitNl u
  | [], _ => by simp [splitNl]
  | c :: cs, h => by
    have hc : ¬ c = '\n' := fun e => h (e ▸ List.mem_cons_self c cs)
    have hcs : ('\n' : Char) ∉ cs := fun m => h (List.mem_cons_of_mem _ m)
    show (if c = '\n' then [] :: splitNl (cs ++ '\n' :: u)
      else match splitNl (cs ++ '\n' :: u) with
        | [] => [[c]]
        | l :: ls => (c :: l) :: ls) = (c :: cs) :: splitNl u
    rw [if_neg hc, splitNl_append u cs hcs]

theorem splitNl_joinNl : ∀ ls : List (List Char), (∀ l ∈ ls, ('\n' : Char) ∉ l) →
    ls ≠ [] → splitNl (joinNl ls) = ls
  | [], _, hne => absurd rfl hne
  | [x], h, _ => splitNl_no_nl x (h x (List.mem_singleton.mpr rfl))
  | x :: y :: rest, h, _ => by
    rw [joinNl, splitNl_append _ x (h x (List.mem_cons_self _ _)),
      splitNl_joinNl (y :: rest) (fun l hl => h l (List.mem_cons_of_mem _ hl)) (by simp)]

theorem firstIdx_append (p : List Char → Bool) (y : List Char) (zs : List (List Char)) :
    ∀ xs : List (List Char), (∀ x ∈ xs, p x = false) → p y = true →
    firstIdx p (xs ++ y :: zs) = some xs.length
  | [], _, hy => by simp [firstIdx, hy]
  | a :: as, hxs, hy => by
    have ha : p a = false := hxs a (List.mem_cons_self _ _)
    rw [List.cons_append, firstIdx, if_neg (by simp [ha]),
      firstIdx_append p y zs as (fun x hx => hxs x (List.mem_cons_of_mem _ hx)) hy]
    rfl

theorem lastIdx_none (p : List Char → Bool) : ∀ zs : List (List Char),
    (∀ z ∈ zs, p z = false) → lastIdx p zs = none
  | [], _ => rfl
  | a :: as, h => by
    have ha : p a = false := h a (List.mem_cons_self _ _)
    rw [lastIdx, lastIdx_none p as (fun z hz => h z (List.mem_cons_of_mem _ hz))]
    simp [ha]

theorem lastIdx_append (p : List Char → Bool) (y : List Char) (zs : List (List Char))
    (hy : p y = true) (hzs : ∀ z ∈ zs, p z = false) :
    ∀ xs : List (List Char), lastIdx p (xs ++ y :: zs) = some xs.length
  | [] => by
    rw [List.nil_append, lastIdx, lastIdx_none p zs hzs]
    simp [hy]
  | a :: as => by
    rw [List.cons_append, lastIdx, lastIdx_append p y zs hy hzs as]
    rfl

/-! ### Helper lemmas about the heading scan and chapter assembly -/

theorem goMatches_mem_le : ∀ (s : List Char) (i : Nat) (ls : Bool) (skip : Nat)
    (q : Nat × List Char), q ∈ goMatches s i ls skip → i ≤ q.1
  | [], _, _, _, _, hq => absurd hq (List.not_mem_nil _)
  | c :: rest, i, ls, skip, q, hq => by
    match skip, hq with
    | k + 1, hq =>
      exact Nat.le_trans (Nat.le_succ i) (goMatches_mem_le rest (i + 1) (isLineTerm c) k q hq)
    | 0, hq =>
      rw [goMatches] at hq
      revert hq
      cases hm : matchAt (c :: rest) ls with
      | none =>
        intro hq
        exact Nat.le_trans (Nat.le_succ i)
          (goMatches_mem_le rest (i + 1) (isLineTerm c) 0 q hq)
      | some m =>
        intro hq
        rcases List.mem_cons.mp hq with h | h
        · rw [h]
        · exact Nat.le_trans (Nat.le_succ i)
            (goMatches_mem_le rest (i + 1) (isLineTerm c) (m.length - 1) q h)

theorem goMatches_chain : ∀ (s : List Char) (i : Nat) (ls : Bool) (skip : Nat),
    List.Chain' (fun q r => q.1 ≤ r.1) (goMatches s i ls skip)
  | [], _, _, _ => List.chain'_nil
  | c :: rest, i, ls, skip => by
    match skip with
    | k + 1 => exact goMatches_chain rest (i + 1) (isLineTerm c) k
    | 0 =>
      rw [goMatches]
      cases hm : matchAt (c :: rest) ls with
      | none => exact goMatches_chain rest (i + 1) (isLineTerm c) 0
      | some m =>
        refine List.chain'_cons'.mpr ⟨fun q hq => ?_, goMatches_chain rest (i + 1) (isLineTerm c) (m.length - 1)⟩
        have := goMatches_mem_le rest (i + 1) (isLineTerm c) (m.length - 1) q
          (List.mem_of_mem_head? hq)
        omega

theorem chain_head_le : ∀ (rest : List (Nat × List Char)) (k : Nat) (m : List Char),
    List.Chain' (fun q r => q.1 ≤ r.1) ((k, m) :: rest) → ∀ q ∈ rest, k ≤ q.1
  | [], _, _, _, _, hq => absurd hq (List.not_mem_nil _)
  | (j, m2) :: rest2, k, m, hch, q, hq => by
    have hkj : k ≤ j := (List.chain'_cons.mp hch).1
    have htl : List.Chain' (fun q r => q.1 ≤ r.1) ((j, m2) :: rest2) := (List.chain'_cons.mp hch).2
    rcases List.mem_cons.mp hq with h | h
    · rw [h]; exact hkj
    · exact Nat.le_trans hkj (chain_head_le rest2 j m2 htl q h)

theorem buildChapters_length (t : List Char) : ∀ ms : List (Nat × List Char),
    (buildChapters t ms).length = ms.length
  | [] => rfl
  | (i, m) :: rest => by
    rw [buildChapters]
    simp [buildChapters_length t rest]

theorem buildChapters_titles (t : List Char) : ∀ ms : List (Nat × List Char),
    (buildChapters t ms).map Chapter.title = ms.map (fun q => trimL q.2)
  | [] => rfl
  | (i, m) :: rest => by
    rw [buildChapters]
    simp [buildChapters_titles t rest]

theorem buildChapters_contents (t : List Char) : ∀ ms : List (Nat × List Char),
    (buildChapters t ms).map Chapter.content = (spansOf t ms).map trimL
  | [] => rfl
  | (i, m) :: rest => by
    rw [buildChapters, spansOf]
    simp [buildChapters_contents t rest]

theorem spansOf_flat (t : List Char) : ∀ (ms : List (Nat × List Char)) (i : Nat) (m : List Char),
    List.Chain' (fun q r => q.1 ≤ r.1) ((i, m) :: ms) →
    (spansOf t ((i, m) :: ms)).flatten = t.drop i
  | [], i, m, _ => by
    show List.take (t.length - i) (List.drop i t) ++ List.flatten [] = List.drop i t
    rw [List.take_of_length_le (by rw [List.length_drop])]
    simp
  | (j, m2) :: ms2, i, m, hch => by
    have hij : i ≤ j := (List.chain'_cons.mp hch).1
    have htl := (List.chain'_cons.mp hch).2
    show List.take (j - i) (List.drop i t) ++ (spansOf t ((j, m2) :: ms2)).flatten = List.drop i t
    rw [spansOf_flat t ms2 j m2 htl]
    conv_rhs => rw [← List.take_append_drop (j - i) (t.drop i)]
    rw [List.drop_drop]
    congr 2
    omega

theorem buildChapters_content_sub (t : List Char) : ∀ (ms : List (Nat × List Char)) (k : Nat),
    (∀ q ∈ ms, k ≤ q.1) → ∀ c ∈ buildChapters t ms, subseg c.content (t.drop k)
  | [], _, _, _, hc => absurd hc (List.not_mem_nil _)
  | (i, m) :: rest, k, hk, c, hc => by
    rw [buildChapters] at hc
    rcases List.mem_cons.mp hc with h | h
    · have hki : k ≤ i := hk (i, m) (List.mem_cons_self _ _)
      have h1 : subseg c.content ((t.drop i).take (nextIdx t rest - i)) := by
        rw [h]; exact trimL_subseg _
      have h2 : subseg ((t.drop i).take (nextIdx t rest - i)) (t.drop i) :=
        take_subseg _ _
      have h3 : subseg (t.drop i) (t.drop k) := by
        have : t.drop i = (t.drop k).drop (i - k) := by
          rw [List.drop_drop]
          congr 1
          omega
        rw [this]
        exact drop_subseg _ _
      exact subseg_trans (subseg_trans h1 h2) h3
    · exact buildChapters_content_sub t rest k
        (fun q hq => hk q (List.mem_cons_of_mem _ hq)) c h

/-! ### JSON round-trip lemmas -/

theorem jsonToChapter_round (c : Chapter) : jsonToChapter (chapterToJson c) = some c := rfl

theorem decodeChapters_round : ∀ l : List Chapter, decodeChapters (l.map chapterToJson) = some l
  | [] => rfl
  | c :: rest => by
    show (match jsonToChapter (chapterToJson c), decodeChapters (rest.map chapterToJson) with
      | some c2, some cs => some (c2 :: cs)
      | _, _ => none) = some (c :: rest)
    rw [jsonToChapter_round, decodeChapters_round rest]

theorem jsonToBook_round (b : LoadedBook) : jsonToBook (bookToJson b) = some b := by
  have h := decodeChapters_round b.chapters
  show (match decodeChapters (b.chapters.map chapterToJson) with
    | some chs => some (LoadedBook.mk b.id b.title b.author chs b.totalChapters)
    | none => none) = some b
  rw [h]

/-! ### Pipeline assembly and cache lemmas -/

theorem loadBook_ok_inv (f : Int → FetchResult) (key : List Char) (b : LoadedBook)
    (h : loadBook f key = .ok b) : b.totalChapters = (b.chapters.length : Int) := by
  unfold loadBook at h
  split at h
  · exact absurd h (by simp)
  · split at h
    · exact absurd h (by simp)
    · injection h with h2
      rw [← h2]

theorem cacheHit_of_valid {σ : Store} {key : List Char} {j : Json}
    (h : σ key = some (.valid j)) (ht : jsTruthy j = true) : cacheHit σ key = true := by
  unfold cacheHit loadBookFromCache
  rw [h]
  exact ht

theorem updStore_ne {σ : Store} {k2 key : List Char} {v : CacheFile} (h : key ≠ k2) :
    updStore σ k2 v key = σ key := by
  unfold updStore
  rw [if_neg h]

/-! ### Demo loop lemmas -/

theorem demoGo_abort (env : Env) : ∀ (l : List (List Char × BookInfo)) (σ : Store) (k : List Char),
    (l.map Prod.fst).Nodup →
    (demoGo env l σ).failed = some k →
    ∃ pre post, l.map Prod.fst = pre ++ k :: post ∧
      (demoGo env l σ).completed = pre ∧
      ∀ key2 ∈ post, key2 ∉ (demoGo env l σ).fetched ∧ (demoGo env l σ).store key2 = σ key2
  | [], σ, k, _, h => by simp [demoGo] at h
  | (key, info) :: rest, σ, k, hnd, h => by
    have hnd0 : key ∉ rest.map Prod.fst ∧ (rest.map Prod.fst).Nodup := by
      rw [List.map_cons] at hnd
      exact List.nodup_cons.mp hnd
    by_cases hc : cacheHit σ key = true
    · have hred : demoGo env ((key, info) :: rest) σ =
          ⟨(demoGo env rest σ).store, (demoGo env rest σ).fetched,
            key :: (demoGo env rest σ).completed, (demoGo env rest σ).failed⟩ := by
        rw [demoGo, if_pos hc]
      rw [hred] at h
      obtain ⟨pre, post, heq, hcomp, hrest⟩ := demoGo_abort env rest σ k hnd0.2 h
      refine ⟨key :: pre, post, ?_, ?_, ?_⟩
      · rw [List.map_cons, heq, List.cons_append]
      · rw [hred]
        show key :: (demoGo env rest σ).completed = key :: pre
        rw [hcomp]
      · intro key2 hk2
        rw [hred]
        exact hrest key2 hk2
    · cases hl : loadBook env.fetch key with
      | error e =>
        cases e with
        | unknownBook =>
          have hred : demoGo env ((key, info) :: rest) σ = ⟨σ, [], [], some key⟩ := by
            rw [demoGo, if_neg hc, hl]
          rw [hred] at h ⊢
          have hk : k = key := by
            have h2 : some key = some k := h
            exact (Option.some.injEq _ _ ▸ h2).symm
          refine ⟨[], rest.map Prod.fst, by rw [List.map_cons, hk, List.nil_append], rfl, ?_⟩
          intro key2 hk2
          exact ⟨List.not_mem_nil key2, rfl⟩
        | failedFetch =>
          have hred : demoGo env ((key, info) :: rest) σ = ⟨σ, [key], [], some key⟩ := by
            rw [demoGo, if_neg hc, hl]
          rw [hred] at h ⊢
          have hk : k = key := by
            have h2 : some key = some k := h
            exact (Option.some.injEq _ _ ▸ h2).symm
          refine ⟨[], rest.map Prod.fst, by rw [List.map_cons, hk, List.nil_append], rfl, ?_⟩
          intro key2 hk2
          have hne : key2 ≠ key := fun e => hnd0.1 (e ▸ hk2)
          exact ⟨by simp [hne], rfl⟩
      | ok book =>
        by_cases hw : env.writeOk key = true
        · have hred : demoGo env ((key, info) :: rest) σ =
              ⟨(demoGo env rest (cacheBookToFile σ key book)).store,
                key :: (demoGo env rest (cacheBookToFile σ key book)).fetched,
                key :: (demoGo env rest (cacheBookToFile σ key book)).completed,
                (demoGo env rest (cacheBookToFile σ key book)).failed⟩ := by
            rw [demoGo, if_neg hc, hl]
            exact if_pos hw
          rw [hred] at h
          obtain ⟨pre, post, heq, hcomp, hrest⟩ :=
            demoGo_abort env rest (cacheBookToFile σ key book) k hnd0.2 h
          refine ⟨key :: pre, post, ?_, ?_, ?_⟩
          · rw [List.map_cons, heq, List.cons_append]
          · rw [hred]
            show key :: (demoGo env rest (cacheBookToFile σ key book)).completed = key :: pre
            rw [hcomp]
          · intro key2 hk2
            have hmem : key2 ∈ rest.map Prod.fst := by
              rw [heq]
              exact List.mem_append.mpr (Or.inr (List.mem_cons_of_mem _ hk2))
            have hne : key2 ≠ key := fun e => hnd0.1 (e ▸ hmem)
            rw [hred]
            refine ⟨?_, ?_⟩
            · show key2 ∉ key :: (demoGo env rest (cacheBookToFile σ key book)).fetched
              intro hin
              rcases List.mem_cons.mp hin with he | hm
              · exact hne he
              · exact (hrest key2 hk2).1 hm
            · show (demoGo env rest (cacheBookToFile σ key book)).store key2 = σ key2
              rw [(hrest key2 hk2).2]
              exact updStore_ne hne
        · have hred : demoGo env ((key, info) :: rest) σ = ⟨σ, [key], [], some key⟩ := by
            rw [demoGo, if_neg hc, hl]
            exact if_neg hw
          rw [hred] at h ⊢
          have hk : k = key := by
            have h2 : some key = some k := h
            exact (Option.some.injEq _ _ ▸ h2).symm
          refine ⟨[], rest.map Prod.fst, by rw [List.map_cons, hk, List.nil_append], rfl, ?_⟩
          intro key2 hk2
          have hne : key2 ≠ key := fun e => hnd0.1 (e ▸ hk2)
          exact ⟨by simp [hne], rfl⟩

theorem demoGo_cached_not_fetched (env : Env) : ∀ (l : List (List Char × BookInfo)) (σ : Store)
    (key : List Char) (j : Json), σ key = some (.valid j) → jsTruthy j = true →
    key ∉ (demoGo env l σ).fetched
  | [], σ, key, j, _, _ => by simp [demoGo]
  | (k2, info) :: rest, σ, key, j, hv, ht => by
    have hkeyhit : cacheHit σ key = true := cacheHit_of_valid hv ht
    by_cases hc : cacheHit σ k2 = true
    · have hred : demoGo env ((k2, info) :: rest) σ =
          ⟨(demoGo env rest σ).store, (demoGo env rest σ).fetched,
            k2 :: (demoGo env rest σ).completed, (demoGo env rest σ).failed⟩ := by
        rw [demoGo, if_pos hc]
      rw [hred]
      exact demoGo_cached_not_fetched env rest σ key j hv ht
    · have hne : key ≠ k2 := fun e => hc (e ▸ hkeyhit)
      cases hl : loadBook env.fetch k2 with
      | error e =>
        cases e with
        | unknownBook =>
          have hred : demoGo env ((k2, info) :: rest) σ = ⟨σ, [], [], some k2⟩ := by
            rw [demoGo, if_neg hc, hl]
          rw [hred]
          exact List.not_mem_nil key
        | failedFetch =>
          have hred : demoGo env ((k2, info) :: rest) σ = ⟨σ, [k2], [], some k2⟩ := by
            rw [demoGo, if_neg hc, hl]
          rw [hred]
          simp [hne]
      | ok book =>
        by_cases hw : env.writeOk k2 = true
        · have hred : demoGo env ((k2, info) :: rest) σ =
              ⟨(demoGo env rest (cacheBookToFile σ k2 book)).store,
                k2 :: (demoGo env rest (cacheBookToFile σ k2 book)).fetched,
                k2 :: (demoGo env rest (cacheBookToFile σ k2 book)).completed,
                (demoGo env rest (cacheBookToFile σ k2 book)).failed⟩ := by
            rw [demoGo, if_neg hc, hl]
            exact if_pos hw
          rw [hred]
          show key ∉ k2 :: (demoGo env rest (cacheBookToFile σ k2 book)).fetched
          intro hin
          rcases List.mem_cons.mp hin with he | hm
          · exact hne he
          · have hv2 : cacheBookToFile σ k2 book key = some (.valid j) := by
              unfold cacheBookToFile
              rw [updStore_ne hne]
              exact hv
            exact demoGo_cached_not_fetched env rest (cacheBookToFile σ k2 book) key j hv2 ht hm
        · have hred : demoGo env ((k2, info) :: rest) σ = ⟨σ, [k2], [], some k2⟩ := by
            rw [demoGo, if_neg hc, hl]
            exact if_neg hw
          rw [hred]
          simp [hne]

/-! ### Claim theorems -/

/-- C2 counterexample: on a raw input with an explicit start banner and an
explicit end banner, the output of cleanGutenbergText still contains the
start-banner token, because the slice begins AT the start-banner line rather
than after it. This refutes the claim that the output contains neither banner
token. -/
theorem C2_counterexample :
    cleanGutenbergText (S "junk\n*** START OF X\nhello\n*** END OF X\nbye") =
      S "*** START OF X\nhello" ∧
    containsSub (S "*** START OF")
      (cleanGutenbergText (S "junk\n*** START OF X\nhello\n*** END OF X\nbye")) = true :=
  ⟨by decide, by decide⟩

/-- C2 (amended): for a raw input whose lines are pre ++ [start banner] ++ mid
++ [end banner] ++ post, where no pre line is a content-start marker and no
post line is an end marker, normalize keeps exactly the start-banner line and
the mid region (post-processed): everything before the start banner, the end
banner itself, and everything after it are excluded, but the start-banner line
itself IS included in the output. -/
theorem C2_amended_normalize_region (pre mid post : List (List Char)) (bl el : List Char)
    (h1 : ∀ l ∈ pre, startPred l = false)
    (h2 : containsSub (S "*** START OF") bl = true)
    (h3 : endPred el = true)
    (h4 : ∀ l ∈ post, endPred l = false)
    (h5 : ∀ l ∈ pre ++ bl :: (mid ++ el :: post), ('\n' : Char) ∉ l) :
    cleanGutenbergText (joinNl (pre ++ bl :: (mid ++ el :: post))) =
      trimL (collapseNl (stripCR (joinNl (bl :: mid)))) := by
  have hsplit : splitNl (joinNl (pre ++ bl :: (mid ++ el :: post))) =
      pre ++ bl :: (mid ++ el :: post) :=
    splitNl_joinNl _ h5 (by simp)
  have hsb : startPred bl = true := by
    unfold startPred
    rw [h2]
    rfl
  have hfi : firstIdx startPred (pre ++ bl :: (mid ++ el :: post)) = some pre.length :=
    firstIdx_append startPred bl (mid ++ el :: post) pre h1 hsb
  have hassoc : pre ++ bl :: (mid ++ el :: post) = (pre ++ bl :: mid) ++ el :: post := by
    rw [List.append_assoc, List.cons_append]
  have hla : lastIdx endPred (pre ++ bl :: (mid ++ el :: post)) =
      some (pre ++ bl :: mid).length := by
    rw [hassoc]
    exact lastIdx_append endPred el post h3 h4 (pre ++ bl :: mid)
  simp only [cleanGutenbergText]
  rw [hsplit, hfi, hla]
  simp only [Option.getD_some]
  rw [List.drop_left]
  have hlen : (pre ++ bl :: mid).length - pre.length = mid.length + 1 := by
    rw [List.length_append, List.length_cons]
    omega
  rw [hlen, List.take_succ_cons, List.take_left]

/-- C2 amended witness: the amended statement evaluated at the concrete
banner-delimited input of the counterexample. -/
theorem C2_amended_normalize_region_witness :
    ((∀ l ∈ [S "junk"], startPred l = false) ∧
     containsSub (S "*** START OF") (S "*** START OF X") = true ∧
     endPred (S "*** END OF X") = true ∧
     (∀ l ∈ [S "bye"], endPred l = false) ∧
     (∀ l ∈ [S "junk"] ++ (S "*** START OF X") :: ([S "hello"] ++ (S "*** END OF X") :: [S "bye"]),
        ('\n' : Char) ∉ l)) ∧
    cleanGutenbergText (joinNl ([S "junk"] ++ (S "*** START OF X") ::
        ([S "hello"] ++ (S "*** END OF X") :: [S "bye"]))) =
      trimL (collapseNl (stripCR (joinNl ((S "*** START OF X") :: [S "hello"])))) :=
  ⟨⟨by decide, by decide, by decide, by decide, by decide⟩,
    C2_amended_normalize_region [S "junk"] [S "hello"] [S "bye"]
      (S "*** START OF X") (S "*** END OF X")
      (by decide) (by decide) (by decide) (by decide) (by decide)⟩

/-- C3 counterexample: on the clean text "x\nCHAPTER I. a" the heading
pattern matches once, but the single chapter's content is "CHAPTER I. a";
the concatenation of the chapter contents is not the original text (the
prose before the first heading is gone), refuting the claim that the
contents concatenate back to the original text. -/
theorem C3_counterexample :
    findMatches (S "x\nCHAPTER I. a") = [(2, S "CHAPTER I")] ∧
    (splitIntoChapters (S "x\nCHAPTER I. a")).map Chapter.content = [S "CHAPTER I. a"] ∧
    ((splitIntoChapters (S "x\nCHAPTER I. a")).map Chapter.content).flatten ≠
      S "x\nCHAPTER I. a" :=
  ⟨by decide, by decide, by decide⟩

/-- C3 (amended): for a clean text with N ≥ 1 heading matches, segment
returns exactly N chapters in order; the i-th title is the i-th matched
string trimmed; the i-th content is the i-th span (from that match's offset
to the next match's offset, or the end of text) trimmed; and the untrimmed
spans are contiguous and concatenate to the suffix of the text from the
first match's offset (not to the whole text). -/
theorem C3_amended_segment (t : List Char) (p : Nat × List Char) (ms : List (Nat × List Char))
    (h : findMatches t = p :: ms) :
    (splitIntoChapters t).length = (p :: ms).length ∧
    (splitIntoChapters t).map Chapter.title = (p :: ms).map (fun q => trimL q.2) ∧
    (splitIntoChapters t).map Chapter.content = (spansOf t (p :: ms)).map trimL ∧
    (spansOf t (p :: ms)).flatten = t.drop p.1 := by
  have hsp : splitIntoChapters t = buildChapters t (p :: ms) := by
    unfold splitIntoChapters
    rw [h]
  have hch : List.Chain' (fun q r => q.1 ≤ r.1) (p :: ms) := by
    rw [← h]
    exact goMatches_chain t 0 true 0
  refine ⟨?_, ?_, ?_, ?_⟩
  · rw [hsp, buildChapters_length]
  · rw [hsp, buildChapters_titles]
  · rw [hsp, buildChapters_contents]
  · obtain ⟨i, m⟩ := p
    exact spansOf_flat t ms i m hch

/-- C3 amended witness: the amended statement evaluated at "CHAPTER I. a". -/
theorem C3_amended_segment_witness :
    findMatches (S "CHAPTER I. a") = [(0, S "CHAPTER I")] ∧
    ((splitIntoChapters (S "CHAPTER I. a")).length = [((0 : Nat), S "CHAPTER I")].length ∧
     (splitIntoChapters (S "CHAPTER I. a")).map Chapter.title =
       [((0 : Nat), S "CHAPTER I")].map (fun q => trimL q.2) ∧
     (splitIntoChapters (S "CHAPTER I. a")).map Chapter.content =
       (spansOf (S "CHAPTER I. a") [(0, S "CHAPTER I")]).map trimL ∧
     (spansOf (S "CHAPTER I. a") [(0, S "CHAPTER I")]).flatten =
       (S "CHAPTER I. a").drop 0) :=
  ⟨by decide, C3_amended_segment (S "CHAPTER I. a") (0, S "CHAPTER I") [] (by decide)⟩

/-- C4: when the heading pattern matches nowhere in a clean text (an output
of cleanGutenbergText, which is always trimmed), segment returns exactly one
chapter titled "Full Text" whose content is the entire input text trimmed. -/
theorem C4_fallback (raw : List Char)
    (h : findMatches (cleanGutenbergText raw) = []) :
    splitIntoChapters (cleanGutenbergText raw) =
      [⟨S "Full Text", trimL (cleanGutenbergText raw)⟩] := by
  have htr : trimL (cleanGutenbergText raw) = cleanGutenbergText raw := by
    unfold cleanGutenbergText
    exact trimL_idem _
  unfold splitIntoChapters
  rw [h, htr]

/-- C4 witness: the fallback evaluated at the clean text of raw input "hi". -/
theorem C4_fallback_witness :
    findMatches (cleanGutenbergText (S "hi")) = [] ∧
    splitIntoChapters (cleanGutenbergText (S "hi")) =
      [⟨S "Full Text", trimL (cleanGutenbergText (S "hi"))⟩] :=
  ⟨by decide, C4_fallback (S "hi") (by decide)⟩

/-- C5: writing a book to the cache and reading the same key back yields
exactly the stored JSON image of the book, and that image decodes back to
the book field for field, chapters in order. -/
theorem C5_cache_roundtrip (σ : Store) (key : List Char) (b : LoadedBook) :
    loadBookFromCache (cacheBookToFile σ key b) key = some (bookToJson b) ∧
    jsonToBook (bookToJson b) = some b := by
  constructor
  · unfold loadBookFromCache cacheBookToFile updStore
    rw [if_pos rfl]
  · exact jsonToBook_round b

/-- C7 counterexample: a transport-level failure and an HTTP 404 produce the
same result null from fetchGutenbergText, so the caller cannot distinguish
them and no status code is carried: the internal throw that mentions the
status is caught by the function's own catch-all. -/
theorem C7_counterexample :
    fetchGutenbergText (fun _ => FetchResult.transportErr) 1342 = none ∧
    fetchGutenbergText (fun _ => FetchResult.statusErr 404) 1342 = none ∧
    fetchGutenbergText (fun _ => FetchResult.transportErr) 1342 =
      fetchGutenbergText (fun _ => FetchResult.statusErr 404) 1342 :=
  ⟨rfl, rfl, rfl⟩

/-- C7 (amended): every failed fetch, of either failure class, yields the
single undistinguished result null. -/
theorem C7_amended_fetch_null (f : Int → FetchResult) (bookId : Int)
    (h : ∀ body, f bookId ≠ FetchResult.ok body) :
    fetchGutenbergText f bookId = none := by
  unfold fetchGutenbergText
  cases hf : f bookId with
  | ok body => exact absurd hf (h body)
  | transportErr => rfl
  | statusErr code => rfl

/-- C7 amended witness: the amended statement at a source answering 404. -/
theorem C7_amended_fetch_null_witness :
    (∀ body, (fun _ => FetchResult.statusErr 404 : Int → FetchResult) 1342 ≠
      FetchResult.ok body) ∧
    fetchGutenbergText (fun _ => FetchResult.statusErr 404) 1342 = none :=
  ⟨fun _ h => FetchResult.noConfusion h,
    C7_amended_fetch_null (fun _ => FetchResult.statusErr 404) 1342
      (fun _ h => FetchResult.noConfusion h)⟩

/-- C8 counterexample: a present-but-corrupt cache entry reads back as
exactly the same null as a missing entry, refuting the claim that a storage
read failure is surfaced as a distinct error outcome. -/
theorem C8_counterexample :
    loadBookFromCache
      (fun k => if k = S "dracula" then some CacheFile.corrupt else none) (S "dracula") = none ∧
    loadBookFromCache (fun _ => none) (S "dracula") = none :=
  ⟨rfl, rfl⟩

/-- C8 (amended): a read of a corrupt entry is swallowed by the catch-all
into null, the very value returned when the key is not cached at all. -/
theorem C8_amended_read_swallows (σ : Store) (key : List Char)
    (h : σ key = some CacheFile.corrupt) :
    loadBookFromCache σ key = none ∧ loadBookFromCache (fun _ => none) key = none := by
  constructor
  · unfold loadBookFromCache
    rw [h]
  · rfl

/-- C8 amended witness: the amended statement at a concrete corrupt store. -/
theorem C8_amended_read_swallows_witness :
    ((fun k => if k = S "alice_wonderland" then some CacheFile.corrupt else none) : Store)
      (S "alice_wonderland") = some CacheFile.corrupt ∧
    (loadBookFromCache
      (fun k => if k = S "alice_wonderland" then some CacheFile.corrupt else none)
      (S "alice_wonderland") = none ∧
     loadBookFromCache (fun _ => none) (S "alice_wonderland") = none) :=
  ⟨rfl, C8_amended_read_swallows _ _ rfl⟩

/-- C9 counterexample: a cache artifact whose stored totalChapters is 5 while
its chapter array is empty is read back and decoded as-is, with no
recomputation: the Book obtained from the cache store has totalChapters 5
and 0 chapters, refuting the claim for cache-obtained books. -/
theorem C9_counterexample :
    loadBookFromCache
      (fun k => if k = S "frankenstein"
        then some (CacheFile.valid (bookToJson ⟨84, S "Frankenstein", S "Mary Shelley", [], 5⟩))
        else none) (S "frankenstein") =
      some (bookToJson ⟨84, S "Frankenstein", S "Mary Shelley", [], 5⟩) ∧
    jsonToBook (bookToJson ⟨84, S "Frankenstein", S "Mary Shelley", [], 5⟩) =
      some ⟨84, S "Frankenstein", S "Mary Shelley", [], 5⟩ ∧
    (⟨84, S "Frankenstein", S "Mary Shelley", [], 5⟩ : LoadedBook).totalChapters ≠
      ((⟨84, S "Frankenstein", S "Mary Shelley", [], 5⟩ : LoadedBook).chapters.length : Int) :=
  ⟨rfl, jsonToBook_round _, by decide⟩

/-- C9 (amended): every Book assembled by the pipeline (loadBook) satisfies
totalChapters = number of chapters; a Book read from the cache is returned
as stored, so the invariant holds for it only if the stored artifact
satisfies it. -/
theorem C9_amended_totalChapters (f : Int → FetchResult) (key : List Char) (b : LoadedBook)
    (h : loadBook f key = .ok b) : b.totalChapters = (b.chapters.length : Int) :=
  loadBook_ok_inv f key b h

/-- C9 amended witness: the invariant on the book assembled for dracula. -/
theorem C9_amended_totalChapters_witness :
    loadBook (fun _ => FetchResult.ok (S "hi")) (S "dracula") =
      .ok ⟨345, S "Dracula", S "Bram Stoker", [⟨S "Full Text", S "hi"⟩], 1⟩ ∧
    (⟨345, S "Dracula", S "Bram Stoker", [⟨S "Full Text", S "hi"⟩], 1⟩ : LoadedBook).totalChapters =
      ((⟨345, S "Dracula", S "Bram Stoker", [⟨S "Full Text", S "hi"⟩], 1⟩ : LoadedBook).chapters.length : Int) :=
  ⟨rfl, C9_amended_totalChapters (fun _ => FetchResult.ok (S "hi")) (S "dracula") _ rfl⟩

/-- C1 counterexample: with a catalog of 5 keys where the second key's fetch
returns HTTP 404, the run records alice_wonderland as the failure and stops:
frankenstein (and everything after) is never processed, never fetched, and
never cached, refuting the claim that every remaining entry is processed. -/
theorem C1_counterexample :
    (demo ⟨fun bid => if bid = 11 then FetchResult.statusErr 404 else FetchResult.ok (S "hi"),
        fun _ => true⟩ (fun _ => none)).failed = some (S "alice_wonderland") ∧
    S "frankenstein" ∉
      (demo ⟨fun bid => if bid = 11 then FetchResult.statusErr 404 else FetchResult.ok (S "hi"),
        fun _ => true⟩ (fun _ => none)).completed ∧
    S "frankenstein" ∉
      (demo ⟨fun bid => if bid = 11 then FetchResult.statusErr 404 else FetchResult.ok (S "hi"),
        fun _ => true⟩ (fun _ => none)).fetched ∧
    (demo ⟨fun bid => if bid = 11 then FetchResult.statusErr 404 else FetchResult.ok (S "hi"),
        fun _ => true⟩ (fun _ => none)).store (S "frankenstein") = none :=
  ⟨by decide, by decide, by decide, rfl⟩

/-- C1 (amended): the demo wraps the whole loop in a single try/catch, so the
first per-entry failure ends the run: the completed entries are exactly the
catalog keys strictly before the failing key, and every catalog key after the
failing one is untouched: never fetched, its cache state unchanged. -/
theorem C1_amended_batch_abort (env : Env) (σ : Store) (k : List Char)
    (h : (demo env σ).failed = some k) :
    ∃ pre post, bookKeys = pre ++ k :: post ∧
      (demo env σ).completed = pre ∧
      ∀ key2 ∈ post, key2 ∉ (demo env σ).fetched ∧ (demo env σ).store key2 = σ key2 := by
  have hnd : (BOOKS.map Prod.fst).Nodup := by decide
  exact demoGo_abort env BOOKS σ k hnd h

/-- C1 amended witness: the amended statement at the 404-on-alice run. -/
theorem C1_amended_batch_abort_witness :
    (demo ⟨fun bid => if bid = 11 then FetchResult.statusErr 404 else FetchResult.ok (S "hi"),
        fun _ => true⟩ (fun _ => none)).failed = some (S "alice_wonderland") ∧
    (∃ pre post, bookKeys = pre ++ (S "alice_wonderland") :: post ∧
      (demo ⟨fun bid => if bid = 11 then FetchResult.statusErr 404 else FetchResult.ok (S "hi"),
        fun _ => true⟩ (fun _ => none)).completed = pre ∧
      ∀ key2 ∈ post, key2 ∉
          (demo ⟨fun bid => if bid = 11 then FetchResult.statusErr 404 else FetchResult.ok (S "hi"),
            fun _ => true⟩ (fun _ => none)).fetched ∧
        (demo ⟨fun bid => if bid = 11 then FetchResult.statusErr 404 else FetchResult.ok (S "hi"),
          fun _ => true⟩ (fun _ => none)).store key2 = (fun _ => none : Store) key2) :=
  ⟨by decide,
    C1_amended_batch_abort
      ⟨fun bid => if bid = 11 then FetchResult.statusErr 404 else FetchResult.ok (S "hi"),
        fun _ => true⟩ (fun _ => none) (S "alice_wonderland") (by decide)⟩

/-- C6 counterexample: the key pride_prejudice has a cache entry present (the
file exists) but corrupt; loadBookFromCache swallows the parse failure into
null, the demo treats it as a miss, and the Fetcher IS invoked for that key,
refuting the claim that a present entry is never re-fetched. -/
theorem C6_counterexample :
    ((fun k => if k = S "pride_prejudice" then some CacheFile.corrupt else none) : Store)
      (S "pride_prejudice") = some CacheFile.corrupt ∧
    S "pride_prejudice" ∈
      (demo ⟨fun _ => FetchResult.ok (S "hi"), fun _ => true⟩
        (fun k => if k = S "pride_prejudice" then some CacheFile.corrupt else none)).fetched :=
  ⟨rfl, by decide⟩

/-- C6 (amended): a key whose cache entry is present, parses, and is truthy
is never fetched during a batch run; a present entry that fails to parse (or
parses to a falsy value) is treated as a miss and fetched. -/
theorem C6_amended_cache_first (env : Env) (σ : Store) (key : List Char) (j : Json)
    (h : σ key = some (CacheFile.valid j)) (ht : jsTruthy j = true) :
    key ∉ (demo env σ).fetched :=
  demoGo_cached_not_fetched env BOOKS σ key j h ht

/-- C6 amended witness: a valid truthy entry for dracula is never fetched. -/
theorem C6_amended_cache_first_witness :
    ((fun k => if k = S "dracula" then some (CacheFile.valid (Json.str (S "x"))) else none) : Store)
      (S "dracula") = some (CacheFile.valid (Json.str (S "x"))) ∧
    jsTruthy (Json.str (S "x")) = true ∧
    S "dracula" ∉
      (demo ⟨fun _ => FetchResult.ok (S "hi"), fun _ => true⟩
        (fun k => if k = S "dracula" then some (CacheFile.valid (Json.str (S "x"))) else none)).fetched :=
  ⟨rfl, by decide,
    C6_amended_cache_first ⟨fun _ => FetchResult.ok (S "hi"), fun _ => true⟩
      (fun k => if k = S "dracula" then some (CacheFile.valid (Json.str (S "x"))) else none)
      (S "dracula") (Json.str (S "x")) rfl (by decide)⟩

/-- C10: when the first heading match of a clean text begins at a positive
offset k, every character before offset k lands in no chapter: the untrimmed
chapter spans together are exactly the suffix of the text from offset k, and
every chapter's content lies inside that suffix. The prose before the first
recognized heading is silently dropped. -/
theorem C10_prefix_dropped (t : List Char) (k : Nat) (m : List Char)
    (rest : List (Nat × List Char)) (h : findMatches t = (k, m) :: rest) (_hk : 0 < k) :
    (spansOf t ((k, m) :: rest)).flatten = t.drop k ∧
    ∀ c ∈ splitIntoChapters t, subseg c.content (t.drop k) := by
  have hsp : splitIntoChapters t = buildChapters t ((k, m) :: rest) := by
    unfold splitIntoChapters
    rw [h]
  have hch : List.Chain' (fun q r => q.1 ≤ r.1) ((k, m) :: rest) := by
    rw [← h]
    exact goMatches_chain t 0 true 0
  constructor
  · exact spansOf_flat t rest k m hch
  · rw [hsp]
    refine buildChapters_content_sub t ((k, m) :: rest) k ?_
    intro q hq
    rcases List.mem_cons.mp hq with he | hm
    · rw [he]
    · exact chain_head_le rest k m hch q hm

/-- C10 witness: the statement at "x\nCHAPTER II. a", first match offset 2. -/
theorem C10_prefix_dropped_witness :
    findMatches (S "x\nCHAPTER II. a") = [(2, S "CHAPTER II")] ∧ 0 < 2 ∧
    ((spansOf (S "x\nCHAPTER II. a") [(2, S "CHAPTER II")]).flatten =
        (S "x\nCHAPTER II. a").drop 2 ∧
      ∀ c ∈ splitIntoChapters (S "x\nCHAPTER II. a"),
        subseg c.content ((S "x\nCHAPTER II. a").drop 2)) :=
  ⟨by decide, by decide,
    C10_prefix_dropped (S "x\nCHAPTER II. a") 2 (S "CHAPTER II") [] (by decide) (by decide)⟩

end Gutenshad
